import Mathlib

/-!
Shallow embedding of the reference bias-add kernel
(`mace/ops/ref/bias_add.cc`, `mace::ops::ref::BiasAdd<T>`).

Modelling choices:
* Tensor storage is a total function `Nat → α` (linear address space of the
  dense buffer); the shape is carried separately, as in the source, and
  out-of-range shape accesses use the `getD` default, mirroring the fact
  that the source performs no bounds checks.
* The element type is an arbitrary additive carrier `α`; the numeric
  conversions of the source (`T` to `float` and back) are value-preserving
  in this exact-arithmetic model.
* The imperative inner loops are embedded as an explicit list of writes in
  program order (`position`, `bias summand`), executed by a fold
  (`runKernel`).  The `aliased` flag of `runKernel` distinguishes the
  in-place invocation (reads go through the storage being mutated, as the
  input and output pointers coincide) from the out-of-place one (reads go
  through the separate input buffer).
* `MACE_CHECK` aborts the process; a computation that hits it is modelled
  as `none`.  `ResizeLike` is an external collaborator: its outcome is a
  `MaceStatus` parameter of `Compute`, and `MACE_RETURN_IF_ERROR`
  propagates a non-success outcome unchanged.
-/

namespace MaceOps

/-- Linear storage of a dense tensor buffer. -/
def Storage (α : Type) : Type := Nat → α

/-- Writing one element of a storage at a linear position. -/
def storeAt {α : Type} (st : Storage α) (pos : Nat) (v : α) : Storage α :=
  fun p => if p = pos then v else st p

/-- A tensor handle: a shape vector and the underlying dense storage. -/
structure Tensor (α : Type) where
  shape : List Nat
  data : Storage α

/-- Status code returned by `Compute` (`MaceStatus` in the source); failure
codes are abstracted by a natural number. -/
inductive MaceStatus where
  | success : MaceStatus
  | failure : Nat → MaceStatus
deriving DecidableEq, Repr

/-- Execution of a list of writes in program order.  Each write `(pos, v)`
stores `src[pos] + v` at `pos`, where `src` is the storage being mutated
when the input and output pointers are aliased, and the separate input
buffer otherwise.  This is the common shape of the three inner loops of
`AddBiasNCHW` / `AddBiasNHWC`, whose statements all read
`output_data[pos] = input_data[pos] + bias_summand`. -/
def runKernel {α : Type} [Add α] (aliased : Bool) (inputData : Storage α)
    (ws : List (Nat × α)) (st : Storage α) : Storage α :=
  ws.foldl (fun s w => storeAt s w.1 ((if aliased then s w.1 else inputData w.1) + w.2)) st

/-- Write sequence of `BiasAdd<T>::AddBiasNCHW` (bias_add.cc lines 77-106),
in program order.  Dimensions are read exactly as in the source:
`batch = input->dim(0)`, `channels = input->dim(1)`,
`height = output->dim(2)`, `width = output->dim(3)`, and
`bias_b = bias->dim_size() == 1 ? 0 : bias->shape()[1]`.  Each iteration
writes `input[offset + i] + bias[bias_b * channels + c]` at
`offset + i` with `offset = (b * channels + c) * image_size`. -/
def AddBiasNCHWWrites {α : Type} [Add α] (input bias output : Tensor α) :
    List (Nat × α) :=
  let batch := input.shape.getD 0 0
  let channels := input.shape.getD 1 0
  let height := output.shape.getD 2 0
  let width := output.shape.getD 3 0
  let image_size := height * width
  let bias_b := if bias.shape.length = 1 then 0 else bias.shape.getD 1 0
  (List.range batch).flatMap (fun b =>
    (List.range channels).flatMap (fun c =>
      (List.range image_size).map (fun i =>
        ((b * channels + c) * image_size + i, bias.data (bias_b * channels + c)))))

/-- Resulting storage of `BiasAdd<T>::AddBiasNCHW`: the write sequence run
over the output buffer. -/
def AddBiasNCHW {α : Type} [Add α] (aliased : Bool) (input bias output : Tensor α) :
    Storage α :=
  runKernel aliased input.data (AddBiasNCHWWrites input bias output) output.data

/-- Write sequence of `BiasAdd<T>::AddBiasNHWC` (bias_add.cc lines 108-147),
in program order; `none` models the fatal `MACE_CHECK(batch == bias->shape()[0])`
on the rank-2 bias path.  `channels = *shape.rbegin()` is the last shape
entry; the rank-1 branch walks `pos` linearly over
`fused_batch = prod(shape[0..n-2])` times `channels` adding `bias[c]`; the
rank-2 branch fuses `shape[1..n-2]` into `fused_hw` and adds
`bias[b * channels + c]` at `pos = (b * fused_hw + hw) * channels + c`. -/
def AddBiasNHWCWrites {α : Type} [Add α] (input bias : Tensor α) :
    Option (List (Nat × α)) :=
  let channels := input.shape.getLastD 0
  if bias.shape.length = 1 then
    let fused_batch := input.shape.dropLast.prod
    some ((List.range fused_batch).flatMap (fun b =>
      (List.range channels).map (fun c => (b * channels + c, bias.data c))))
  else
    let batch := input.shape.getD 0 0
    if batch = bias.shape.getD 0 0 then
      let fused_hw := (input.shape.drop 1).dropLast.prod
      some ((List.range batch).flatMap (fun b =>
        (List.range fused_hw).flatMap (fun hw =>
          (List.range channels).map (fun c =>
            ((b * fused_hw + hw) * channels + c, bias.data (b * channels + c))))))
    else
      none

/-- Resulting storage of `BiasAdd<T>::AddBiasNHWC`, or `none` when the
fatal shape check fires. -/
def AddBiasNHWC {α : Type} [Add α] (aliased : Bool) (input bias output : Tensor α) :
    Option (Storage α) :=
  match AddBiasNHWCWrites input bias with
  | none => none
  | some ws => some (runKernel aliased input.data ws output.data)

/-- Embedding of `BiasAdd<T>::Compute` (bias_add.cc lines 44-75).
`aliased` models the pointer test `input != output` (when true, the
`output` argument is the very same object as `input`); `resizeStatus` is
the outcome of the external `output->ResizeLike(input)` call, checked by
`MACE_RETURN_IF_ERROR` only on the non-aliased path.  The result is
`none` when a fatal `MACE_CHECK` aborts, otherwise the returned status
together with the final state of the output object. -/
def Compute {α : Type} [Add α] (input : Tensor α) (bias : Option (Tensor α))
    (output : Tensor α) (isNCHW : Bool) (aliased : Bool)
    (resizeStatus : MaceStatus) : Option (MaceStatus × Tensor α) :=
  if !aliased then
    match resizeStatus with
    | MaceStatus.failure code => some (MaceStatus.failure code, output)
    | MaceStatus.success =>
      match bias with
      | none => some (MaceStatus.success, { shape := input.shape, data := input.data })
      | some bv =>
        if isNCHW then
          some (MaceStatus.success,
            { shape := input.shape,
              data := AddBiasNCHW false input bv { shape := input.shape, data := output.data } })
        else
          match AddBiasNHWC false input bv { shape := input.shape, data := output.data } with
          | none => none
          | some d => some (MaceStatus.success, { shape := input.shape, data := d })
  else
    match bias with
    | none => some (MaceStatus.success, input)
    | some bv =>
      if isNCHW then
        some (MaceStatus.success,
          { shape := input.shape, data := AddBiasNCHW true input bv input })
      else
        match AddBiasNHWC true input bv input with
        | none => none
        | some d => some (MaceStatus.success, { shape := input.shape, data := d })

/-! Generic lemmas about `runKernel`. -/

theorem runKernel_nil {α : Type} [Add α] (aliased : Bool) (d : Storage α) (st : Storage α) :
    runKernel aliased d [] st = st := rfl

theorem runKernel_cons {α : Type} [Add α] (aliased : Bool) (d : Storage α)
    (w : Nat × α) (ws : List (Nat × α)) (st : Storage α) :
    runKernel aliased d (w :: ws) st =
      runKernel aliased d ws
        (storeAt st w.1 ((if aliased then st w.1 else d w.1) + w.2)) := rfl

theorem storeAt_same {α : Type} (st : Storage α) (pos : Nat) (v : α) :
    storeAt st pos v pos = v := by
  simp [storeAt]

theorem storeAt_other {α : Type} (st : Storage α) (pos : Nat) (v : α) (p : Nat)
    (h : p ≠ pos) : storeAt st pos v p = st p := by
  simp [storeAt, h]

/-- A position touched by no write keeps its initial value. -/
theorem runKernel_not_written {α : Type} [Add α] (aliased : Bool) (d : Storage α)
    (ws : List (Nat × α)) (st : Storage α) (p : Nat)
    (h : ∀ w ∈ ws, w.1 ≠ p) : runKernel aliased d ws st p = st p := by
  induction ws generalizing st with
  | nil => rfl
  | cons w ws ih =>
    rw [runKernel_cons]
    rw [ih _ (fun u hu => h u (List.mem_cons_of_mem _ hu))]
    exact storeAt_other _ _ _ _ (fun hp => h w (List.mem_cons_self _ _) hp.symm)

/-- Out-of-place execution: when the write positions are pairwise distinct,
the written position holds the input value plus the bias summand of its
(unique) write. -/
theorem runKernel_false_getElem {α : Type} [Add α] (d : Storage α)
    (ws : List (Nat × α)) (st : Storage α) (p : Nat) (v : α)
    (hmem : (p, v) ∈ ws) (hnd : (ws.map Prod.fst).Nodup) :
    runKernel false d ws st p = d p + v := by
  induction ws generalizing st with
  | nil => cases hmem
  | cons w ws ih =>
    rw [runKernel_cons]
    rw [List.map_cons] at hnd
    rcases List.mem_cons.1 hmem with heq | hmem'
    · subst heq
      have hnot : ∀ u ∈ ws, u.1 ≠ p := by
        intro u hu hup
        exact (List.nodup_cons.1 hnd).1 (List.mem_map.2 ⟨u, hu, hup⟩)
      rw [runKernel_not_written _ _ _ _ _ hnot]
      simpa using storeAt_same st p (d p + v)
    · exact ih _ hmem' (List.nodup_cons.1 hnd).2

/-- In-place execution: when the write positions are strictly increasing in
program order, each write reads the original value of its own position, so
the written position holds the initial value plus the bias summand. -/
theorem runKernel_true_getElem {α : Type} [Add α] (d : Storage α)
    (ws : List (Nat × α)) (st : Storage α) (p : Nat) (v : α)
    (hmem : (p, v) ∈ ws) (hsort : ws.Pairwise (fun w1 w2 => w1.1 < w2.1)) :
    runKernel true d ws st p = st p + v := by
  induction ws generalizing st with
  | nil => cases hmem
  | cons w ws ih =>
    rw [runKernel_cons]
    rcases List.mem_cons.1 hmem with heq | hmem'
    · subst heq
      have hnot : ∀ u ∈ ws, u.1 ≠ p := by
        intro u hu hup
        have := (List.pairwise_cons.1 hsort).1 u hu
        omega
      rw [runKernel_not_written _ _ _ _ _ hnot]
      simpa using storeAt_same st p (st p + v)
    · have hlt : w.1 < p := (List.pairwise_cons.1 hsort).1 (p, v) hmem'
      rw [ih _ hmem' (List.pairwise_cons.1 hsort).2]
      rw [storeAt_other _ _ _ _ (by omega)]

/-! Coverage of the loop nests: the write positions of each kernel loop are
exactly `0, 1, ..., N-1` in program order. -/

theorem flatMap_range_range' (n len s : Nat) :
    (List.range n).flatMap (fun j => List.range' (s + j * len) len) =
      List.range' s (n * len) := by
  induction n with
  | zero => simp
  | succ m ih =>
    rw [List.range_succ, List.flatMap_append, ih]
    have : (([m] : List Nat).flatMap fun j => List.range' (s + j * len) len) =
        List.range' (s + m * len) len := by simp
    rw [this]
    have happ := List.range'_append s (m * len) len 1
    simp only [Nat.one_mul] at happ
    rw [happ]
    ring_nf

theorem flatMap_range_range (n len : Nat) :
    (List.range n).flatMap (fun j => List.range' (j * len) len) =
      List.range (n * len) := by
  have h := flatMap_range_range' n len 0
  simp only [Nat.zero_add] at h
  rw [h, List.range_eq_range']

theorem map_offset_range (off len : Nat) :
    (List.range len).map (fun i => off + i) = List.range' off len :=
  (List.range'_eq_map_range off len).symm

/-- The first projection of an innermost loop that writes a run of `len`
consecutive positions starting at `off`. -/
theorem map_fst_inner {α : Type} (len off : Nat) (v : Nat → α) :
    ((List.range len).map (fun i => (off + i, v i))).map Prod.fst =
      List.range' off len := by
  rw [List.map_map, ← map_offset_range]
  rfl

/-- The NCHW loop nest writes positions `0, 1, ..., batch*channels*image_size - 1`
in program order. -/
theorem AddBiasNCHWWrites_map_fst {α : Type} [Add α] (input bias output : Tensor α)
    (B C H W : Nat) (hin : input.shape = [B, C, H, W])
    (hout : output.shape = [B, C, H, W]) :
    (AddBiasNCHWWrites input bias output).map Prod.fst =
      List.range (B * (C * (H * W))) := by
  unfold AddBiasNCHWWrites
  rw [hin, hout]
  simp only [List.getD_cons_zero, List.getD_cons_succ, List.map_flatMap]
  simp only [map_fst_inner]
  simp only [Nat.add_mul]
  simp only [flatMap_range_range']
  simp only [Nat.mul_assoc]
  exact flatMap_range_range B (C * (H * W))

/-- Membership of a single NCHW iteration in the write sequence. -/
theorem AddBiasNCHWWrites_mem {α : Type} [Add α] (input bias output : Tensor α)
    (B C H W : Nat) (hin : input.shape = [B, C, H, W])
    (hout : output.shape = [B, C, H, W]) (b c i : Nat)
    (hb : b < B) (hc : c < C) (hi : i < H * W) :
    ((b * C + c) * (H * W) + i,
      bias.data ((if bias.shape.length = 1 then 0 else bias.shape.getD 1 0) * C + c)) ∈
        AddBiasNCHWWrites input bias output := by
  unfold AddBiasNCHWWrites
  rw [hin, hout]
  simp only [List.getD_cons_zero, List.getD_cons_succ]
  refine List.mem_flatMap.2 ⟨b, List.mem_range.2 hb, ?_⟩
  refine List.mem_flatMap.2 ⟨c, List.mem_range.2 hc, ?_⟩
  exact List.mem_map.2 ⟨i, List.mem_range.2 hi, rfl⟩

/-- Characterization of the NHWC write sequence for a rank-1 bias. -/
theorem AddBiasNHWCWrites_rank1 {α : Type} [Add α] (input bias : Tensor α)
    (h1 : bias.shape.length = 1) :
    AddBiasNHWCWrites input bias =
      some ((List.range input.shape.dropLast.prod).flatMap (fun b =>
        (List.range (input.shape.getLastD 0)).map (fun c =>
          (b * input.shape.getLastD 0 + c, bias.data c)))) := by
  simp only [AddBiasNHWCWrites]
  rw [if_pos h1]

/-- Characterization of the NHWC write sequence for a higher-rank bias whose
leading dimension matches the batch dimension. -/
theorem AddBiasNHWCWrites_rank2 {α : Type} [Add α] (input bias : Tensor α)
    (h1 : bias.shape.length ≠ 1)
    (hmatch : input.shape.getD 0 0 = bias.shape.getD 0 0) :
    AddBiasNHWCWrites input bias =
      some ((List.range (input.shape.getD 0 0)).flatMap (fun b =>
        (List.range ((input.shape.drop 1).dropLast.prod)).flatMap (fun hw =>
          (List.range (input.shape.getLastD 0)).map (fun c =>
            ((b * (input.shape.drop 1).dropLast.prod + hw) * input.shape.getLastD 0 + c,
              bias.data (b * input.shape.getLastD 0 + c)))))) := by
  simp only [AddBiasNHWCWrites]
  rw [if_neg h1, if_pos hmatch]

/-- The fatal `MACE_CHECK`: with a higher-rank bias, the NHWC routine aborts
exactly when the batch dimension differs from the bias's leading dimension. -/
theorem AddBiasNHWCWrites_none_iff {α : Type} [Add α] (input bias : Tensor α)
    (h1 : bias.shape.length ≠ 1) :
    (AddBiasNHWCWrites input bias = none ↔
      input.shape.getD 0 0 ≠ bias.shape.getD 0 0) := by
  simp only [AddBiasNHWCWrites]
  rw [if_neg h1]
  by_cases h : input.shape.getD 0 0 = bias.shape.getD 0 0
  · simp [h]
  · simp [h]

/-- Positions of the two-level (rank-1 bias) NHWC loop. -/
theorem nhwc1_map_fst {α : Type} (fb ch : Nat) (v : Nat → α) :
    (((List.range fb).flatMap (fun b =>
        (List.range ch).map (fun c => (b * ch + c, v c)))).map Prod.fst) =
      List.range (fb * ch) := by
  simp only [List.map_flatMap, map_fst_inner]
  exact flatMap_range_range fb ch

/-- Positions of the three-level (batched bias) NHWC loop. -/
theorem nhwc2_map_fst {α : Type} (B fhw ch : Nat) (v : Nat → Nat → α) :
    (((List.range B).flatMap (fun b =>
        (List.range fhw).flatMap (fun hw =>
          (List.range ch).map (fun c =>
            ((b * fhw + hw) * ch + c, v b c))))).map Prod.fst) =
      List.range (B * (fhw * ch)) := by
  simp only [List.map_flatMap, map_fst_inner]
  simp only [Nat.add_mul]
  simp only [flatMap_range_range']
  simp only [Nat.mul_assoc]
  exact flatMap_range_range B (fhw * ch)

/-- Membership of one iteration of the two-level NHWC loop. -/
theorem nhwc1_mem {α : Type} (fb ch : Nat) (v : Nat → α) (b c : Nat)
    (hb : b < fb) (hc : c < ch) :
    (b * ch + c, v c) ∈
      (List.range fb).flatMap (fun b =>
        (List.range ch).map (fun c => (b * ch + c, v c))) := by
  refine List.mem_flatMap.2 ⟨b, List.mem_range.2 hb, ?_⟩
  exact List.mem_map.2 ⟨c, List.mem_range.2 hc, rfl⟩

/-- Membership of one iteration of the three-level NHWC loop. -/
theorem nhwc2_mem {α : Type} (B fhw ch : Nat) (v : Nat → Nat → α) (b hw c : Nat)
    (hb : b < B) (hhw : hw < fhw) (hc : c < ch) :
    ((b * fhw + hw) * ch + c, v b c) ∈
      (List.range B).flatMap (fun b =>
        (List.range fhw).flatMap (fun hw =>
          (List.range ch).map (fun c => ((b * fhw + hw) * ch + c, v b c)))) := by
  refine List.mem_flatMap.2 ⟨b, List.mem_range.2 hb, ?_⟩
  refine List.mem_flatMap.2 ⟨hw, List.mem_range.2 hhw, ?_⟩
  exact List.mem_map.2 ⟨c, List.mem_range.2 hc, rfl⟩

/-- Out-of-place read of a written position, given full coverage. -/
theorem runKernel_false_at {α : Type} [Add α] (d st0 : Storage α)
    (ws : List (Nat × α)) (N : Nat) (hws : ws.map Prod.fst = List.range N)
    (p : Nat) (v : α) (hmem : (p, v) ∈ ws) :
    runKernel false d ws st0 p = d p + v :=
  runKernel_false_getElem d ws st0 p v hmem
    (by rw [hws]; exact List.nodup_range N)

/-- Aliasing does not change the result: when the write positions are exactly
`0, ..., N-1` in order, the in-place run over the shared storage agrees with
the out-of-place run into any destination buffer, at every covered
position. -/
theorem runKernel_agree {α : Type} [Add α] (d st0 : Storage α)
    (ws : List (Nat × α)) (N : Nat) (hws : ws.map Prod.fst = List.range N)
    (p : Nat) (hp : p < N) :
    runKernel true d ws d p = runKernel false d ws st0 p := by
  have hpmem : p ∈ ws.map Prod.fst := by rw [hws]; exact List.mem_range.2 hp
  obtain ⟨w, hw, hfst⟩ := List.mem_map.1 hpmem
  obtain ⟨q, v⟩ := w
  cases hfst
  have hsort : ws.Pairwise (fun w1 w2 => w1.1 < w2.1) := by
    have h := List.pairwise_lt_range N
    rw [← hws] at h
    exact (List.pairwise_map).1 h
  rw [runKernel_true_getElem d ws d q v hw hsort,
    runKernel_false_getElem d ws st0 q v hw
      (by rw [hws]; exact List.nodup_range N)]

/-! Characterizations of `Compute` in each configuration. -/

theorem Compute_nchw_out {α : Type} [Add α] (input bv output : Tensor α) :
    Compute input (some bv) output true false MaceStatus.success =
      some (MaceStatus.success,
        { shape := input.shape,
          data := AddBiasNCHW false input bv
            { shape := input.shape, data := output.data } }) := rfl

theorem Compute_nchw_in {α : Type} [Add α] (input bv output : Tensor α)
    (resizeStatus : MaceStatus) :
    Compute input (some bv) output true true resizeStatus =
      some (MaceStatus.success,
        { shape := input.shape, data := AddBiasNCHW true input bv input }) := rfl

theorem Compute_nhwc_out {α : Type} [Add α] (input bv output : Tensor α) :
    Compute input (some bv) output false false MaceStatus.success =
      (match AddBiasNHWC false input bv { shape := input.shape, data := output.data } with
      | none => none
      | some d => some (MaceStatus.success, { shape := input.shape, data := d })) := rfl

theorem Compute_nhwc_in {α : Type} [Add α] (input bv output : Tensor α)
    (resizeStatus : MaceStatus) :
    Compute input (some bv) output false true resizeStatus =
      (match AddBiasNHWC true input bv input with
      | none => none
      | some d => some (MaceStatus.success, { shape := input.shape, data := d })) := rfl

/-- Any `some` result of `Compute` carries the success status, except on the
non-aliased path with a failed resize, where the resize status is returned
and the output object is untouched. -/
theorem Compute_some_status {α : Type} [Add α] (input : Tensor α)
    (bias : Option (Tensor α)) (output : Tensor α) (isNCHW aliased : Bool)
    (resizeStatus : MaceStatus) (st : MaceStatus) (t : Tensor α)
    (h : Compute input bias output isNCHW aliased resizeStatus = some (st, t)) :
    st = MaceStatus.success ∨
      (aliased = false ∧ resizeStatus = st ∧ t = output) := by
  unfold Compute at h
  cases aliased with
  | true =>
    left
    simp only [Bool.not_true, Bool.false_eq_true, if_false] at h
    cases bias with
    | none => cases h; rfl
    | some bv =>
      cases isNCHW with
      | true => simp only [if_true] at h; cases h; rfl
      | false =>
        simp only [Bool.false_eq_true, if_false] at h
        split at h
        · cases h
        · cases h; rfl
  | false =>
    simp only [Bool.not_false, if_true] at h
    cases resizeStatus with
    | failure code => right; cases h; exact ⟨rfl, rfl, rfl⟩
    | success =>
      left
      cases bias with
      | none => cases h; rfl
      | some bv =>
        cases isNCHW with
        | true => simp only [if_true] at h; cases h; rfl
        | false =>
          simp only [Bool.false_eq_true, if_false] at h
          split at h
          · cases h
          · cases h; rfl

/-- Claim C5: if the output is a distinct object and the resize fails,
Compute propagates exactly that failure status and leaves the output
object untouched; a failure status is returned only on that path, every
other returned status is success. -/
theorem C5_resize_failure_propagation {α : Type} [Add α] (input : Tensor α)
    (bias : Option (Tensor α)) (output : Tensor α) (isNCHW : Bool) :
    (∀ code : Nat,
      Compute input bias output isNCHW false (MaceStatus.failure code) =
        some (MaceStatus.failure code, output)) ∧
    (∀ (aliased : Bool) (resizeStatus st : MaceStatus) (t : Tensor α),
      Compute input bias output isNCHW aliased resizeStatus = some (st, t) →
      st ≠ MaceStatus.success →
      aliased = false ∧ resizeStatus = st ∧ t = output) := by
  constructor
  · intro code
    rfl
  · intro aliased resizeStatus st t h hne
    rcases Compute_some_status input bias output isNCHW aliased resizeStatus st t h with
      hs | hs
    · exact absurd hs hne
    · exact hs

/-- Claim C6: with an absent bias and a distinct output object, Compute
resizes the output to the input's shape, copies the input element-wise, and
returns success. -/
theorem C6_absent_bias_copy {α : Type} [Add α] (input output : Tensor α)
    (isNCHW : Bool) :
    Compute input none output isNCHW false MaceStatus.success =
      some (MaceStatus.success, { shape := input.shape, data := input.data }) := rfl

/-- Claim C7: in-place invocation with an absent bias performs no resize,
no copy and no write: the shared object is returned exactly unchanged with
a success status. -/
theorem C7_inplace_absent_bias_noop {α : Type} [Add α] (input output : Tensor α)
    (isNCHW : Bool) (resizeStatus : MaceStatus) :
    Compute input none output isNCHW true resizeStatus =
      some (MaceStatus.success, input) := rfl

/-- Claim C8: on the channel-last path with a rank-2 (more generally,
non-rank-1) bias, Compute aborts on the fatal assertion (no result at all)
exactly when the input's batch dimension differs from the bias's leading
dimension; when they agree the assertion branch is unreachable and a result
is produced. -/
theorem C8_nhwc_rank2_fatal_check {α : Type} [Add α] (input bias output : Tensor α)
    (aliased : Bool) (resizeStatus : MaceStatus)
    (h1 : bias.shape.length ≠ 1)
    (hok : aliased = false → resizeStatus = MaceStatus.success) :
    (Compute input (some bias) output false aliased resizeStatus = none ↔
      input.shape.getD 0 0 ≠ bias.shape.getD 0 0) := by
  cases aliased with
  | true =>
    rw [Compute_nhwc_in]
    unfold AddBiasNHWC
    by_cases h : input.shape.getD 0 0 = bias.shape.getD 0 0
    · rcases hw : AddBiasNHWCWrites input bias with _ | ws
      · exact absurd ((AddBiasNHWCWrites_none_iff input bias h1).1 hw) (by simpa using h)
      · constructor
        · intro hcontra
          exact absurd hcontra (by simp)
        · intro hne
          exact absurd h hne
    · rw [(AddBiasNHWCWrites_none_iff input bias h1).2 h]
      exact ⟨fun _ => h, fun _ => rfl⟩
  | false =>
    rw [hok rfl, Compute_nhwc_out]
    unfold AddBiasNHWC
    by_cases h : input.shape.getD 0 0 = bias.shape.getD 0 0
    · rcases hw : AddBiasNHWCWrites input bias with _ | ws
      · exact absurd ((AddBiasNHWCWrites_none_iff input bias h1).1 hw) (by simpa using h)
      · constructor
        · intro hcontra
          exact absurd hcontra (by simp)
        · intro hne
          exact absurd h hne
    · rw [(AddBiasNHWCWrites_none_iff input bias h1).2 h]
      exact ⟨fun _ => h, fun _ => rfl⟩

/-- Claim C2: channel-major mode with a rank-4 input and a rank-1 bias of
length `channels`: Compute sets every output element at linear offset
`(b*channels + c)*height*width + i` to the input element at the same offset
plus `bias[c]`. -/
theorem C2_nchw_rank1_bias {α : Type} [Add α] (input bias output : Tensor α)
    (B C H W : Nat) (hin : input.shape = [B, C, H, W]) (hbias : bias.shape = [C])
    (b c i : Nat) (hb : b < B) (hc : c < C) (hi : i < H * W) :
    ∃ t : Tensor α,
      Compute input (some bias) output true false MaceStatus.success =
        some (MaceStatus.success, t) ∧
      t.data ((b * C + c) * (H * W) + i) =
        input.data ((b * C + c) * (H * W) + i) + bias.data c := by
  refine ⟨_, Compute_nchw_out input bias output, ?_⟩
  show AddBiasNCHW false input bias { shape := input.shape, data := output.data }
      ((b * C + c) * (H * W) + i) = _
  unfold AddBiasNCHW
  have hout : ({ shape := input.shape, data := output.data } : Tensor α).shape =
      [B, C, H, W] := hin
  have hmem := AddBiasNCHWWrites_mem input bias
    { shape := input.shape, data := output.data } B C H W hin hout b c i hb hc hi
  have hmf := AddBiasNCHWWrites_map_fst input bias
    { shape := input.shape, data := output.data } B C H W hin hout
  rw [runKernel_false_at input.data _ _ _ hmf _ _ hmem, hbias]
  norm_num

/-- Claim C4: channel-last mode with a rank-1 bias: Compute sets every
output element at linear offset `p*channels + c` (for `p` ranging over the
product of all leading dimensions) to the input element there plus
`bias[c]`. -/
theorem C4_nhwc_rank1_bias {α : Type} [Add α] (input bias output : Tensor α)
    (lead : List Nat) (C : Nat) (hin : input.shape = lead ++ [C])
    (hbias : bias.shape = [C]) (p c : Nat) (hp : p < lead.prod) (hc : c < C) :
    ∃ t : Tensor α,
      Compute input (some bias) output false false MaceStatus.success =
        some (MaceStatus.success, t) ∧
      t.data (p * C + c) = input.data (p * C + c) + bias.data c := by
  have hch : input.shape.getLastD 0 = C := by
    rw [hin]
    exact List.getLastD_concat _ _ _
  have hfb : input.shape.dropLast.prod = lead.prod := by
    rw [hin, List.dropLast_concat]
  have h1 : bias.shape.length = 1 := by rw [hbias]; rfl
  have hw := AddBiasNHWCWrites_rank1 input bias h1
  rw [hch, hfb] at hw
  refine ⟨⟨input.shape, runKernel false input.data
      ((List.range lead.prod).flatMap (fun b =>
        (List.range C).map (fun c => (b * C + c, bias.data c)))) output.data⟩, ?_, ?_⟩
  · rw [Compute_nhwc_out]
    unfold AddBiasNHWC
    rw [hw]
  · exact runKernel_false_at input.data output.data _ _
      (nhwc1_map_fst lead.prod C bias.data) _ _
      (nhwc1_mem lead.prod C bias.data p c hp hc)

/-- Claim C3: channel-last mode with a batched (rank-2) bias whose leading
dimension equals the input's batch dimension: Compute sets every output
element at linear offset `(b*fused_hw + hw)*channels + c` to the input
element there plus `bias[b*channels + c]`. -/
theorem C3_nhwc_rank2_bias {α : Type} [Add α] (input bias output : Tensor α)
    (B : Nat) (middle : List Nat) (C : Nat)
    (hin : input.shape = B :: middle ++ [C])
    (h2 : bias.shape.length ≠ 1) (hb0 : bias.shape.getD 0 0 = B)
    (b hw c : Nat) (hb : b < B) (hhw : hw < middle.prod) (hc : c < C) :
    ∃ t : Tensor α,
      Compute input (some bias) output false false MaceStatus.success =
        some (MaceStatus.success, t) ∧
      t.data ((b * middle.prod + hw) * C + c) =
        input.data ((b * middle.prod + hw) * C + c) + bias.data (b * C + c) := by
  have hbatch : input.shape.getD 0 0 = B := by rw [hin]; rfl
  have hch : input.shape.getLastD 0 = C := by
    rw [hin]
    show ((B :: middle) ++ [C]).getLastD 0 = C
    exact List.getLastD_concat _ _ _
  have hfhw : (input.shape.drop 1).dropLast.prod = middle.prod := by
    rw [hin]
    show (middle ++ [C]).dropLast.prod = middle.prod
    rw [List.dropLast_concat]
  have hmatch : input.shape.getD 0 0 = bias.shape.getD 0 0 := by
    rw [hbatch, hb0]
  have hws := AddBiasNHWCWrites_rank2 input bias h2 hmatch
  rw [hbatch, hch, hfhw] at hws
  refine ⟨⟨input.shape, runKernel false input.data
      ((List.range B).flatMap (fun b =>
        (List.range middle.prod).flatMap (fun hw =>
          (List.range C).map (fun c =>
            ((b * middle.prod + hw) * C + c, bias.data (b * C + c))))))
      output.data⟩, ?_, ?_⟩
  · rw [Compute_nhwc_out]
    unfold AddBiasNHWC
    rw [hws]
  · exact runKernel_false_at input.data output.data _ _
      (nhwc2_map_fst B middle.prod C (fun b c => bias.data (b * C + c))) _ _
      (nhwc2_mem B middle.prod C (fun b c => bias.data (b * C + c)) b hw c hb hhw hc)

/-- Claim C10: with a present bias, for either layout, running Compute
in-place (output aliased with input) produces, element for element over the
logical tensor extent, the same storage content as running it out-of-place
into a distinct output object: each output element depends only on the
same-index input element and the bias, so aliasing does not change the
result. -/
theorem C10_inplace_equals_out_of_place {α : Type} [Add α]
    (input bv output : Tensor α) (isNCHW : Bool)
    (hnchw : isNCHW = true → ∃ B C H W, input.shape = [B, C, H, W])
    (hnhwc1 : isNCHW = false → bv.shape.length = 1 → input.shape ≠ [])
    (hnhwc2 : isNCHW = false → bv.shape.length ≠ 1 →
      ∃ B mid C, input.shape = B :: mid ++ [C] ∧ bv.shape.getD 0 0 = B) :
    ∃ tIn tOut : Tensor α,
      Compute input (some bv) input isNCHW true MaceStatus.success =
        some (MaceStatus.success, tIn) ∧
      Compute input (some bv) output isNCHW false MaceStatus.success =
        some (MaceStatus.success, tOut) ∧
      ∀ p, p < input.shape.prod → tIn.data p = tOut.data p := by
  cases isNCHW with
  | true =>
    obtain ⟨B, C, H, W, hin⟩ := hnchw rfl
    refine ⟨_, _, Compute_nchw_in input bv input MaceStatus.success,
      Compute_nchw_out input bv output, ?_⟩
    intro p hp
    show AddBiasNCHW true input bv input p =
      AddBiasNCHW false input bv { shape := input.shape, data := output.data } p
    unfold AddBiasNCHW
    have hws_eq : AddBiasNCHWWrites input bv
        ({ shape := input.shape, data := output.data } : Tensor α) =
        AddBiasNCHWWrites input bv input := rfl
    rw [hws_eq]
    have hmf := AddBiasNCHWWrites_map_fst input bv input B C H W hin hin
    have hprod : input.shape.prod = B * (C * (H * W)) := by
      rw [hin]
      simp [List.prod_cons, List.prod_nil, Nat.mul_one]
    rw [hprod] at hp
    exact runKernel_agree input.data output.data _ _ hmf p hp
  | false =>
    by_cases h1 : bv.shape.length = 1
    · have hne := hnhwc1 rfl h1
      obtain ⟨lead, C, hin⟩ : ∃ lead C, input.shape = lead ++ [C] :=
        ⟨input.shape.dropLast, input.shape.getLast hne,
          (List.dropLast_append_getLast hne).symm⟩
      have hch : input.shape.getLastD 0 = C := by
        rw [hin]
        exact List.getLastD_concat _ _ _
      have hfb : input.shape.dropLast.prod = lead.prod := by
        rw [hin, List.dropLast_concat]
      have hws := AddBiasNHWCWrites_rank1 input bv h1
      rw [hch, hfb] at hws
      refine ⟨⟨input.shape, runKernel true input.data
          ((List.range lead.prod).flatMap (fun b =>
            (List.range C).map (fun c => (b * C + c, bv.data c)))) input.data⟩,
        ⟨input.shape, runKernel false input.data
          ((List.range lead.prod).flatMap (fun b =>
            (List.range C).map (fun c => (b * C + c, bv.data c)))) output.data⟩,
        ?_, ?_, ?_⟩
      · rw [Compute_nhwc_in]
        unfold AddBiasNHWC
        rw [hws]
      · rw [Compute_nhwc_out]
        unfold AddBiasNHWC
        rw [hws]
      · intro p hp
        have hprod : input.shape.prod = lead.prod * C := by
          rw [hin, List.prod_append]
          simp [List.prod_cons, List.prod_nil, Nat.mul_one]
        rw [hprod] at hp
        exact runKernel_agree input.data output.data _ _
          (nhwc1_map_fst lead.prod C bv.data) p hp
    · obtain ⟨B, mid, C, hin, hb0⟩ := hnhwc2 rfl h1
      have hbatch : input.shape.getD 0 0 = B := by rw [hin]; rfl
      have hch : input.shape.getLastD 0 = C := by
        rw [hin]
        show ((B :: mid) ++ [C]).getLastD 0 = C
        exact List.getLastD_concat _ _ _
      have hfhw : (input.shape.drop 1).dropLast.prod = mid.prod := by
        rw [hin]
        show (mid ++ [C]).dropLast.prod = mid.prod
        rw [List.dropLast_concat]
      have hmatch : input.shape.getD 0 0 = bv.shape.getD 0 0 := by
        rw [hbatch, hb0]
      have hws := AddBiasNHWCWrites_rank2 input bv h1 hmatch
      rw [hbatch, hch, hfhw] at hws
      refine ⟨⟨input.shape, runKernel true input.data
          ((List.range B).flatMap (fun b =>
            (List.range mid.prod).flatMap (fun hw =>
              (List.range C).map (fun c =>
                ((b * mid.prod + hw) * C + c, bv.data (b * C + c)))))) input.data⟩,
        ⟨input.shape, runKernel false input.data
          ((List.range B).flatMap (fun b =>
            (List.range mid.prod).flatMap (fun hw =>
              (List.range C).map (fun c =>
                ((b * mid.prod + hw) * C + c, bv.data (b * C + c)))))) output.data⟩,
        ?_, ?_, ?_⟩
      · rw [Compute_nhwc_in]
        unfold AddBiasNHWC
        rw [hws]
      · rw [Compute_nhwc_out]
        unfold AddBiasNHWC
        rw [hws]
      · intro p hp
        have hprod : input.shape.prod = B * (mid.prod * C) := by
          rw [hin]
          simp [List.prod_cons, List.prod_append, List.prod_nil, Nat.mul_one,
            Nat.mul_assoc]
        rw [hprod] at hp
        exact runKernel_agree input.data output.data _ _
          (nhwc2_map_fst B mid.prod C (fun b c => bv.data (b * C + c))) p hp

/-! Concrete tensors used to instantiate the theorems. -/

/-- Dense storage built from a finite list (0 beyond the end). -/
def listStorage (l : List Int) : Storage Int := fun p => l.getD p 0

def inC1 : Tensor Int := ⟨[2, 1, 1, 1], listStorage [5, 7]⟩

def biasC1 : Tensor Int := ⟨[2, 1], listStorage [10, 20]⟩

def inC2 : Tensor Int := ⟨[1, 2, 2, 2], listStorage [1, 2, 3, 4, 5, 6, 7, 8]⟩

def biasC2 : Tensor Int := ⟨[2], listStorage [10, 20]⟩

def inC3 : Tensor Int := ⟨[2, 1, 2], listStorage [1, 2, 3, 4]⟩

def biasC3 : Tensor Int := ⟨[2, 2], listStorage [1, 1, 2, 2]⟩

def biasBad : Tensor Int := ⟨[3, 2], listStorage [1, 1, 2, 2, 3, 3]⟩

def inC4 : Tensor Int := ⟨[1, 2, 2], listStorage [1, 2, 3, 4]⟩

def biasC4 : Tensor Int := ⟨[2], listStorage [100, 200]⟩

def outScratch : Tensor Int := ⟨[9], listStorage []⟩

/-- Claim C1: evaluation of the channel-major path on a rank-2 bias.  The
source sets `bias_b = bias->shape()[1]` (the bias's second dimension, a
constant) instead of the loop batch index `b`, so the `(b=0, c=0)` output
element picks up `bias[1] = 20` and becomes `25`, while the claimed
`bias[b*channels + c] = bias[0] = 10` would give `15`. -/
theorem C1_nchw_bias_row_divergence :
    ∃ t : Tensor Int,
      Compute inC1 (some biasC1) outScratch true false MaceStatus.success =
        some (MaceStatus.success, t) ∧
      t.data 0 = 25 ∧
      inC1.data 0 + biasC1.data (0 * 1 + 0) = 15 ∧
      (25 : Int) ≠ 15 := by
  refine ⟨_, Compute_nchw_out inC1 biasC1 outScratch, ?_, ?_, ?_⟩ <;> decide

/-- Witness for claim C2 at the specification's channel-major example:
input shape `(1,2,2,2)` with values `1..8`, bias `[10, 20]`, checked at
batch 0, channel 1, spatial index 3 (linear offset 7, value `8 + 20`). -/
theorem C2_nchw_rank1_bias_witness :
    (0 < 1 ∧ 1 < 2 ∧ 3 < 2 * 2) ∧
    ∃ t : Tensor Int,
      Compute inC2 (some biasC2) outScratch true false MaceStatus.success =
        some (MaceStatus.success, t) ∧
      t.data ((0 * 2 + 1) * (2 * 2) + 3) =
        inC2.data ((0 * 2 + 1) * (2 * 2) + 3) + biasC2.data 1 :=
  ⟨by decide,
    C2_nchw_rank1_bias inC2 biasC2 outScratch 1 2 2 2 rfl rfl 0 1 3
      (by decide) (by decide) (by decide)⟩

/-- Witness for claim C3 at the specification's channel-last batched-bias
example: input shape `(2,1,2)`, bias shape `(2,2) = [[1,1],[2,2]]`, checked
at batch 1, fused index 0, channel 0 (linear offset 2, value `3 + 2`). -/
theorem C3_nhwc_rank2_bias_witness :
    (1 < 2 ∧ 0 < ([1] : List Nat).prod ∧ 0 < 2) ∧
    ∃ t : Tensor Int,
      Compute inC3 (some biasC3) outScratch false false MaceStatus.success =
        some (MaceStatus.success, t) ∧
      t.data ((1 * ([1] : List Nat).prod + 0) * 2 + 0) =
        inC3.data ((1 * ([1] : List Nat).prod + 0) * 2 + 0) + biasC3.data (1 * 2 + 0) :=
  ⟨by decide,
    C3_nhwc_rank2_bias inC3 biasC3 outScratch 2 [1] 2 rfl (by decide) rfl 1 0 0
      (by decide) (by decide) (by decide)⟩

/-- Witness for claim C4 at the specification's channel-last unbatched-bias
example: input shape `(1,2,2)` with values `[[1,2],[3,4]]`, bias
`[100, 200]`, checked at flattened position 1, channel 1 (linear offset 3,
value `4 + 200`). -/
theorem C4_nhwc_rank1_bias_witness :
    (1 < ([1, 2] : List Nat).prod ∧ 1 < 2) ∧
    ∃ t : Tensor Int,
      Compute inC4 (some biasC4) outScratch false false MaceStatus.success =
        some (MaceStatus.success, t) ∧
      t.data (1 * 2 + 1) = inC4.data (1 * 2 + 1) + biasC4.data 1 :=
  ⟨by decide,
    C4_nhwc_rank1_bias inC4 biasC4 outScratch [1, 2] 2 rfl rfl 1 1
      (by decide) (by decide)⟩

/-- Witness for claim C5: a concrete failed resize (code 3) is propagated
verbatim and the output object is returned untouched. -/
theorem C5_resize_failure_propagation_witness :
    Compute inC2 (some biasC2) outScratch true false (MaceStatus.failure 3) =
      some (MaceStatus.failure 3, outScratch) :=
  (C5_resize_failure_propagation inC2 (some biasC2) outScratch true).1 3

/-- Witness for claim C8: channel-last call with bias shape `(3,2)` against
batch dimension 2 hits the fatal assertion (no result). -/
theorem C8_nhwc_rank2_fatal_check_witness :
    Compute inC3 (some biasBad) outScratch false false MaceStatus.success = none :=
  (C8_nhwc_rank2_fatal_check inC3 biasBad outScratch false MaceStatus.success
    (by decide) (fun _ => rfl)).2 (by decide)

/-- Witness for claim C10 at the channel-last unbatched example: the
in-place and out-of-place runs agree on every element of the logical
extent. -/
theorem C10_inplace_equals_out_of_place_witness :
    ∃ tIn tOut : Tensor Int,
      Compute inC4 (some biasC4) inC4 false true MaceStatus.success =
        some (MaceStatus.success, tIn) ∧
      Compute inC4 (some biasC4) outScratch false false MaceStatus.success =
        some (MaceStatus.success, tOut) ∧
      ∀ p, p < inC4.shape.prod → tIn.data p = tOut.data p :=
  C10_inplace_equals_out_of_place inC4 biasC4 outScratch false
    (fun h => absurd h (by decide))
    (fun _ _ => by decide)
    (fun _ h => absurd (by decide : biasC4.shape.length = 1) h)

end MaceOps
